import Mathlib

/-!
Verification of the Wilo-Cloud-Monitoring telemetry pipeline against its
specification.  The backend service (sensor sampler, per-second CSV file
store, retention/eviction, aggregation, WebSocket command handling) is
described by the spec and by src/backend/README.md; the browser dashboard
(src/src/components/Dashboard.tsx and the frontend files) is embedded from
its TypeScript source.  Machine numbers are modelled as exact rationals;
JavaScript number semantics (NaN, infinities) get an explicit carrier type
where a claim depends on them.
-/

/- ## Data model -/

/-- Modelled from the spec: a Reading is a timestamped vector of three axis
values plus one derived magnitude (`total`).  Timestamps are wall-clock
milliseconds; values are exact rationals standing in for machine floats. -/
structure Reading where
  timestamp : Nat
  x : ℚ
  y : ℚ
  z : ℚ
  total : ℚ
  deriving DecidableEq

/-- Modelled from the spec: the wall-clock second a SecondBucket covers,
split into the calendar fields the FileStore path derivation uses. -/
structure SecondStamp where
  year : Nat
  month : Nat
  day : Nat
  hour : Nat
  minute : Nat
  second : Nat
  deriving DecidableEq

/-- Modelled from the spec: a sealed SecondBucket — the ordered readings of
one wall-clock second, immutable after sealing. -/
structure SecondBucket where
  second : SecondStamp
  readings : List Reading
  deriving DecidableEq

/-- Modelled from the spec: one cell of a CSV row — either the timestamp
column or one of the four numeric columns (x, y, z, total). -/
inductive CsvCell where
  | stamp (t : Nat)
  | value (q : ℚ)
  deriving DecidableEq

/-- Modelled from the spec: a StoredFile — path, the ordered readings it
holds, and its creation-order index. -/
structure StoredFile where
  path : String
  readings : List Reading
  index : Nat
  deriving DecidableEq

/- ## FileStore: path derivation and CSV rows -/

/-- Two-digit zero-padded decimal rendering, as used in the CSV paths. -/
def pad2 (n : Nat) : String :=
  if n < 10 then "0" ++ toString n else toString n

/-- Four-digit zero-padded decimal rendering for the year directory. -/
def pad4 (n : Nat) : String :=
  if n < 10 then "000" ++ toString n
  else if n < 100 then "00" ++ toString n
  else if n < 1000 then "0" ++ toString n
  else toString n

/-- Modelled from the spec: week-of-month of a day of the month — days 1–7
are week 1, days 8–14 week 2, and so on. -/
def weekOfMonth (day : Nat) : Nat :=
  (day - 1) / 7 + 1

/-- Modelled from the spec: the FileStore path for the bucket of second `t`,
`readings/<YYYY>/<MM>/Week_<N>/<DD>/<HHMMSS>.csv`. -/
def pathOf (t : SecondStamp) : String :=
  "readings/" ++ pad4 t.year ++ "/" ++ pad2 t.month ++ "/Week_" ++
    toString (weekOfMonth t.day) ++ "/" ++ pad2 t.day ++ "/" ++
    pad2 t.hour ++ pad2 t.minute ++ pad2 t.second ++ ".csv"

/-- Modelled from the spec: one fixed-column CSV row for a reading, in the
column order `timestamp,x,y,z,total`. -/
def rowOf (r : Reading) : List CsvCell :=
  [CsvCell.stamp r.timestamp, CsvCell.value r.x, CsvCell.value r.y,
   CsvCell.value r.z, CsvCell.value r.total]

/-- Modelled from the spec: parse one CSV row back into a Reading; any row
not in the fixed five-column shape is rejected. -/
def parseRow : List CsvCell → Option Reading
  | [CsvCell.stamp t, CsvCell.value x, CsvCell.value y,
     CsvCell.value z, CsvCell.value tot] => some ⟨t, x, y, z, tot⟩
  | _ => none

/-- Modelled from the spec: parse a whole file's rows, failing if any row is
malformed. -/
def parseRows : List (List CsvCell) → Option (List Reading)
  | [] => some []
  | r :: rest =>
    match parseRow r, parseRows rest with
    | some rd, some rds => some (rd :: rds)
    | _, _ => none

/-- Modelled from the spec: FileStore state — the published files (path to
serialized rows, most recent first) and the next creation-order index. -/
structure FileStoreState where
  disk : List (String × List (List CsvCell))
  nextIndex : Nat
  deriving DecidableEq

/-- Modelled from the spec: errors `read` can report. -/
inductive FsError where
  | notFound
  | malformed
  deriving DecidableEq

/-- Modelled from the spec: `write(bucket)` — computes the path from the
bucket's second, writes all readings as fixed-column rows, and returns the
StoredFile carrying the next creation-order index. -/
def fsWrite (st : FileStoreState) (b : SecondBucket) : FileStoreState × StoredFile :=
  let p := pathOf b.second
  (⟨(p, b.readings.map rowOf) :: st.disk, st.nextIndex + 1⟩,
   ⟨p, b.readings, st.nextIndex⟩)

/-- Modelled from the spec: `read(path)` — returns the parsed readings of
one file, or fails with NotFound (or a parse failure for a malformed row). -/
def fsRead (st : FileStoreState) (p : String) : Except FsError (List Reading) :=
  match st.disk.lookup p with
  | none => Except.error FsError.notFound
  | some rows =>
    match parseRows rows with
    | none => Except.error FsError.malformed
    | some rds => Except.ok rds

/- ## RetentionManager -/

/-- Modelled from the spec: RetentionManager state — the configured capacity
and the FIFO window of stored files, oldest first. -/
structure RetentionState where
  maxFiles : Nat
  window : List StoredFile
  deriving DecidableEq

/-- Modelled from the spec: the eviction loop of `admit` — while the window
is longer than the capacity, pop the oldest file.  Returns the evicted
files (oldest first) and the remaining window. -/
def dropOldest (m : Nat) : List StoredFile → List StoredFile × List StoredFile
  | [] => ([], [])
  | f :: rest =>
    if rest.length + 1 > m then
      let p := dropOldest m rest
      (f :: p.1, p.2)
    else ([], f :: rest)

/-- Modelled from the spec: `admit(file)` — append the file to the window,
then evict oldest files while the capacity is exceeded.  Returns the new
state and the evicted files, oldest first. -/
def admitFile (st : RetentionState) (f : StoredFile) : RetentionState × List StoredFile :=
  let p := dropOldest st.maxFiles (st.window ++ [f])
  (⟨st.maxFiles, p.2⟩, p.1)

/-- Run a sequence of admissions, keeping only the retention state. -/
def runAdmissions (st : RetentionState) (fs : List StoredFile) : RetentionState :=
  fs.foldl (fun s f => (admitFile s f).1) st

/-- Run a sequence of admissions, also collecting every evicted file in
eviction order. -/
def runAdmitTrace (st : RetentionState) (fs : List StoredFile) :
    RetentionState × List StoredFile :=
  fs.foldl (fun acc f =>
    let r := admitFile acc.1 f
    (r.1, acc.2 ++ r.2)) (st, [])

/- ## Basic lemmas about the eviction loop -/

theorem dropOldest_eq (m : Nat) (w : List StoredFile) :
    dropOldest m w = (w.take (w.length - m), w.drop (w.length - m)) := by
  induction w with
  | nil => simp [dropOldest]
  | cons f rest ih =>
    by_cases h : rest.length + 1 > m
    · have hk : (f :: rest).length - m = (rest.length - m) + 1 := by
        simp only [List.length_cons]; omega
      simp only [dropOldest, if_pos h, ih, hk, List.take_succ_cons, List.drop_succ_cons]
    · have hk : rest.length + 1 - m = 0 := by omega
      simp [dropOldest, if_neg h, List.length_cons, hk]

theorem admitFile_window_le (st : RetentionState) (f : StoredFile) :
    (admitFile st f).1.window.length ≤ st.maxFiles := by
  simp only [admitFile, dropOldest_eq, List.length_drop]
  omega

theorem admitFile_maxFiles (st : RetentionState) (f : StoredFile) :
    (admitFile st f).1.maxFiles = st.maxFiles := rfl

theorem runAdmissions_maxFiles (st : RetentionState) (fs : List StoredFile) :
    (runAdmissions st fs).maxFiles = st.maxFiles := by
  induction fs generalizing st with
  | nil => rfl
  | cons f rest ih => simpa [runAdmissions] using ih (admitFile st f).1

theorem runAdmissions_window_le (st : RetentionState) (fs : List StoredFile)
    (h : st.window.length ≤ st.maxFiles) :
    (runAdmissions st fs).window.length ≤ st.maxFiles := by
  induction fs generalizing st with
  | nil => simpa [runAdmissions] using h
  | cons f rest ih =>
    have h1 : ((admitFile st f).1).window.length ≤ ((admitFile st f).1).maxFiles := by
      simpa [admitFile_maxFiles] using admitFile_window_le st f
    simpa [runAdmissions, admitFile_maxFiles] using ih (admitFile st f).1 h1

/- ## Aggregator: MaxRecord maintenance -/

/-- Modelled from the spec: the MaxRecord — the maximum reading value over
the retained window, with the source file's creation-order index and the
reading's timestamp as provenance. -/
structure MaxRecord where
  value : ℚ
  sourceIndex : Nat
  timestamp : Nat
  deriving DecidableEq

/-- All readings reachable through a window, each tagged with the index of
the StoredFile holding it, in window order. -/
def windowEntries : List StoredFile → List (Nat × Reading)
  | [] => []
  | f :: rest => f.readings.map (fun rd => (f.index, rd)) ++ windowEntries rest

/-- One comparison step of the maximum scan: a strictly larger total
replaces the current record. -/
def considerEntry (acc : Option MaxRecord) (e : Nat × Reading) : Option MaxRecord :=
  match acc with
  | none => some ⟨e.2.total, e.1, e.2.timestamp⟩
  | some r => if r.value < e.2.total then some ⟨e.2.total, e.1, e.2.timestamp⟩ else some r

/-- Modelled from the spec: recompute the maximum from scratch over the full
current window. -/
def recomputeMax (w : List StoredFile) : Option MaxRecord :=
  (windowEntries w).foldl considerEntry none

/-- Modelled from the spec: `on_window_changed(added, removed)` — if
`removed` contained the current MaxRecord's source file, recompute from
scratch over the full current window; otherwise compare the added readings
against the current maximum. -/
def onWindowChanged (added removed current : List StoredFile)
    (cur : Option MaxRecord) : Option MaxRecord :=
  match cur with
  | none => recomputeMax current
  | some r =>
    if removed.any (fun f => f.index == r.sourceIndex) then recomputeMax current
    else (windowEntries added).foldl considerEntry (some r)

/-- Correctness of a MaxRecord for a list of tagged readings: `none` only
for an empty list, and otherwise the recorded value is attained by an entry
with the recorded provenance and bounds every entry's total. -/
@[reducible] def maxCorrect (es : List (Nat × Reading)) : Option MaxRecord → Prop
  | none => es = []
  | some r =>
    (∃ e ∈ es, e.1 = r.sourceIndex ∧ e.2.total = r.value ∧ e.2.timestamp = r.timestamp) ∧
      ∀ e ∈ es, e.2.total ≤ r.value

theorem windowEntries_append (a b : List StoredFile) :
    windowEntries (a ++ b) = windowEntries a ++ windowEntries b := by
  induction a with
  | nil => simp [windowEntries]
  | cons f rest ih => simp [windowEntries, ih]

theorem mem_windowEntries {e : Nat × Reading} {w : List StoredFile}
    (h : e ∈ windowEntries w) : ∃ f ∈ w, f.index = e.1 ∧ e.2 ∈ f.readings := by
  induction w with
  | nil => simp [windowEntries] at h
  | cons f rest ih =>
    simp only [windowEntries, List.mem_append, List.mem_map] at h
    rcases h with ⟨rd, hrd, he⟩ | h
    · exact ⟨f, by simp, by simp [← he], by simp [← he, hrd]⟩
    · obtain ⟨g, hg, hi, hm⟩ := ih h
      exact ⟨g, by simp [hg], hi, hm⟩

theorem foldl_considerEntry_correct (es : List (Nat × Reading)) :
    ∀ (ctx : List (Nat × Reading)) (acc : Option MaxRecord),
      maxCorrect ctx acc → maxCorrect (ctx ++ es) (es.foldl considerEntry acc) := by
  induction es with
  | nil => intro ctx acc h; simpa using h
  | cons e rest ih =>
    intro ctx acc h
    have step : maxCorrect (ctx ++ [e]) (considerEntry acc e) := by
      match acc, h with
      | none, h =>
        subst h
        refine ⟨⟨e, by simp, rfl, rfl, rfl⟩, ?_⟩
        intro e' he'
        simp only [List.nil_append, List.mem_singleton] at he'
        subst he'
        exact le_refl _
      | some r, h =>
        obtain ⟨⟨w, hw, hwi, hwt, hwts⟩, hub⟩ := h
        simp only [considerEntry]
        by_cases hlt : r.value < e.2.total
        · rw [if_pos hlt]
          refine ⟨⟨e, by simp, rfl, rfl, rfl⟩, ?_⟩
          intro e' he'
          rcases List.mem_append.mp he' with h1 | h1
          · exact le_of_lt (lt_of_le_of_lt (hub e' h1) hlt)
          · simp only [List.mem_singleton] at h1
            subst h1
            exact le_refl _
        · rw [if_neg hlt]
          refine ⟨⟨w, List.mem_append_left _ hw, hwi, hwt, hwts⟩, ?_⟩
          intro e' he'
          rcases List.mem_append.mp he' with h1 | h1
          · exact hub e' h1
          · simp only [List.mem_singleton] at h1
            subst h1
            exact le_of_not_lt hlt
    have := ih (ctx ++ [e]) (considerEntry acc e) step
    simpa [List.append_assoc] using this

theorem recomputeMax_correct (w : List StoredFile) :
    maxCorrect (windowEntries w) (recomputeMax w) := by
  simpa using foldl_considerEntry_correct (windowEntries w) [] none rfl

theorem maxCorrect_drop_removed (removed mid : List StoredFile) (r : MaxRecord)
    (hg : removed.any (fun f => f.index == r.sourceIndex) = false)
    (h : maxCorrect (windowEntries (removed ++ mid)) (some r)) :
    maxCorrect (windowEntries mid) (some r) := by
  obtain ⟨⟨e, he, hei, het, hets⟩, hub⟩ := h
  rw [windowEntries_append] at he hub
  constructor
  · rcases List.mem_append.mp he with h1 | h1
    · exfalso
      obtain ⟨g, hg1, hg2, _⟩ := mem_windowEntries h1
      have hany : removed.any (fun f => f.index == r.sourceIndex) = true :=
        List.any_eq_true.mpr ⟨g, hg1, by simp [hg2, hei]⟩
      rw [hany] at hg
      exact Bool.noConfusion hg
    · exact ⟨e, h1, hei, het, hets⟩
  · intro e' he'
    exact hub e' (List.mem_append.mpr (Or.inr he'))

/-- Modelled from the spec: the combined RetentionManager/Aggregator state
the pipeline threads between admissions. -/
structure AggState where
  retention : RetentionState
  maxRec : Option MaxRecord
  deriving DecidableEq

/-- Modelled from the spec: one logical step of the pipeline — admit a new
StoredFile (evicting oldest files past the capacity) and synchronously
notify the Aggregator with the added and removed files. -/
def pipelineStep (st : AggState) (f : StoredFile) : AggState :=
  let r := admitFile st.retention f
  ⟨r.1, onWindowChanged [f] r.2 r.1.window st.maxRec⟩

theorem onWindowChanged_admit_correct (m : Nat) (w : List StoredFile)
    (cur : Option MaxRecord) (f : StoredFile)
    (h : maxCorrect (windowEntries w) cur) :
    maxCorrect (windowEntries ((admitFile ⟨m, w⟩ f).1.window))
      (onWindowChanged [f] (admitFile ⟨m, w⟩ f).2 (admitFile ⟨m, w⟩ f).1.window cur) := by
  simp only [admitFile, dropOldest_eq]
  cases cur with
  | none =>
    simp only [onWindowChanged]
    exact recomputeMax_correct _
  | some r =>
    by_cases hguard :
        ((w ++ [f]).take ((w ++ [f]).length - m)).any
          (fun g => g.index == r.sourceIndex) = true
    · simp only [onWindowChanged]
      rw [if_pos hguard]
      exact recomputeMax_correct _
    · have hgf : ((w ++ [f]).take ((w ++ [f]).length - m)).any
          (fun g => g.index == r.sourceIndex) = false := by simpa using hguard
      have hk : (w ++ [f]).length - m ≤ w.length := by
        by_contra hlt
        push_neg at hlt
        have hlen : (w ++ [f]).length = w.length + 1 := by simp
        have htake : (w ++ [f]).take ((w ++ [f]).length - m) = w ++ [f] :=
          List.take_of_length_le (by omega)
        obtain ⟨⟨e, he, hei, _, _⟩, _⟩ := h
        obtain ⟨g, hg1, hg2, _⟩ := mem_windowEntries he
        have hany : ((w ++ [f]).take ((w ++ [f]).length - m)).any
            (fun g => g.index == r.sourceIndex) = true := by
          rw [htake]
          exact List.any_eq_true.mpr ⟨g, List.mem_append_left _ hg1, by simp [hg2, hei]⟩
        exact absurd hany hguard
      have htk : (w ++ [f]).take ((w ++ [f]).length - m) =
          w.take ((w ++ [f]).length - m) := List.take_append_of_le_length hk
      have hdk : (w ++ [f]).drop ((w ++ [f]).length - m) =
          w.drop ((w ++ [f]).length - m) ++ [f] := List.drop_append_of_le_length hk
      rw [htk] at hgf
      rw [htk, hdk]
      simp only [onWindowChanged]
      rw [if_neg (fun hc => Bool.noConfusion (hgf ▸ hc))]
      have hmid : maxCorrect (windowEntries (w.drop ((w ++ [f]).length - m))) (some r) := by
        apply maxCorrect_drop_removed (w.take ((w ++ [f]).length - m))
          (w.drop ((w ++ [f]).length - m)) r hgf
        rw [List.take_append_drop]
        exact h
      have hfin := foldl_considerEntry_correct (windowEntries [f])
        (windowEntries (w.drop ((w ++ [f]).length - m))) (some r) hmid
      rw [windowEntries_append]
      exact hfin

/- ## Sampler: sampling-rate command -/

/-- Modelled from the spec: Sampler rate state — the current rate and the
configured sane bounds (the collaborating hardware limits the ceiling). -/
structure SamplerState where
  rate : Nat
  minRate : Nat
  maxRate : Nat
  deriving DecidableEq

/-- Modelled from the spec: the `command_response` wire message — echo of
the command name, a success flag, and the new value if any. -/
structure CommandResponse where
  command : String
  success : Bool
  newRate : Option Nat
  deriving DecidableEq

/-- Modelled from the spec: `set_rate(new_rate)` — bounded to the sane
range; an out-of-bounds request is rejected with `success = false` and
leaves the state unchanged. -/
def setSamplingRate (st : SamplerState) (req : Nat) : SamplerState × CommandResponse :=
  if st.minRate ≤ req ∧ req ≤ st.maxRate then
    ({ st with rate := req }, ⟨"set_sampling_rate", true, some req⟩)
  else (st, ⟨"set_sampling_rate", false, none⟩)

/-- The dashboard's `command_response` handler (src/unnamed/part_003,
handleWebSocketMessage): the displayed rate is replaced only when the
response is for `set_sampling_rate`, reports success, and carries a truthy
(present, non-zero) `new_rate`; otherwise it is left unchanged. -/
def handleCommandResponse (samplingRate : Nat) (command : String) (success : Bool)
    (newRate : Option Nat) : Nat :=
  if command = "set_sampling_rate" then
    match success, newRate with
    | true, some r => if r ≠ 0 then r else samplingRate
    | _, _ => samplingRate
  else samplingRate

/- ## Dashboard live-data buffer -/

/-- A dashboard chart point (src/unnamed/part_003, interface DataPoint):
a timestamp and one acceleration value. -/
structure DataPoint where
  timestamp : Nat
  acceleration : ℚ
  deriving DecidableEq

/-- JavaScript `arr.slice(-n)` for positive `n`: the last `min n arr.length`
elements. -/
def jsSliceLast (n : Nat) (l : List α) : List α := l.drop (l.length - n)

/-- The payload of one `status` WebSocket message as the live-data handler
consumes it: the connected flag and the point appended when connected. -/
structure StatusMsg where
  connected : Bool
  point : DataPoint
  deriving DecidableEq

/-- The `status` branch of handleWebSocketMessage (src/unnamed/part_003):
when connected, append the new live point and keep only the last 50 points
(`updated.slice(-50)`); otherwise the buffer is untouched. -/
def liveStep (live : List DataPoint) (msg : StatusMsg) : List DataPoint :=
  if msg.connected then jsSliceLast 50 (live ++ [msg.point]) else live

/-- The live-data buffer after a sequence of `status` messages, starting
from the initial empty `useState` buffer. -/
def runLive (msgs : List StatusMsg) : List DataPoint :=
  msgs.foldl liveStep []

/-- The points a sequence of `status` messages appends, in order: one per
message whose payload reports connected. -/
def appendedPoints (msgs : List StatusMsg) : List DataPoint :=
  (msgs.filter (fun m => m.connected)).map (fun m => m.point)

/- ## Dashboard file-list handler -/

/-- The `file_list` branch of handleWebSocketMessage (src/unnamed/part_003):
`if (data.files && data.files.length > 0) setCsvFiles(data.files)` — the
stored list is replaced only by a present, non-empty `files` array. -/
def handleFileListMsg (files : Option (List String)) (current : List String) :
    List String :=
  match files with
  | none => current
  | some fs => if 0 < fs.length then fs else current

/- ## Retention capacity versus the aggregation window -/

/-- From src/backend/README.md: `processing.aggregation_interval_hours`
defaults to 2 — data is aggregated every 2 hours. -/
def aggregationIntervalHours : Nat := 2

/-- From src/backend/README.md: the aggregate file covers the past 2 hours,
which the README itself counts as 7200 per-second files. -/
def readmeFilesPerWindow : Nat := 7200

/-- Modelled from the spec and src/backend/README.md: one StoredFile is
created per elapsed wall-clock second, so a retention capacity of `n` files
retains `n` seconds of data. -/
def secondsRetained (maxFiles : Nat) : Nat := maxFiles

/- ## Lemmas about the live-data buffer -/

theorem jsSliceLast_length_le (n : Nat) (l : List α) : (jsSliceLast n l).length ≤ n := by
  simp only [jsSliceLast, List.length_drop]
  omega

theorem jsSliceLast_of_length_le (n : Nat) (l : List α) (h : l.length ≤ n) :
    jsSliceLast n l = l := by
  simp only [jsSliceLast]
  rw [Nat.sub_eq_zero_of_le h, List.drop_zero]

theorem jsSliceLast_reverse_take (n : Nat) (l : List α) :
    jsSliceLast n l = (l.reverse.take n).reverse := by
  apply List.reverse_injective
  rw [List.reverse_reverse]
  unfold jsSliceLast
  rw [List.reverse_drop]
  by_cases h : n ≤ l.length
  · congr 1
    omega
  · rw [List.take_of_length_le (by simp; omega), List.take_of_length_le (by simp; omega)]

theorem jsSliceLast_append_singleton (n : Nat) (l : List α) (p : α) :
    jsSliceLast n (jsSliceLast n l ++ [p]) = jsSliceLast n (l ++ [p]) := by
  rw [jsSliceLast_reverse_take n l, jsSliceLast_reverse_take n ((l.reverse.take n).reverse ++ [p]),
    jsSliceLast_reverse_take n (l ++ [p])]
  simp only [List.reverse_append, List.reverse_reverse, List.reverse_cons, List.reverse_nil,
    List.nil_append, List.singleton_append]
  congr 1
  cases n with
  | zero => simp
  | succ m => simp [List.take_succ_cons, List.take_take, Nat.min_eq_left (Nat.le_succ m)]

theorem foldl_liveStep_slice (msgs : List StatusMsg) :
    ∀ a : List DataPoint,
      msgs.foldl liveStep (jsSliceLast 50 a) = jsSliceLast 50 (a ++ appendedPoints msgs) := by
  induction msgs with
  | nil => intro a; simp [appendedPoints]
  | cons msg rest ih =>
    intro a
    rw [List.foldl_cons]
    by_cases hc : msg.connected
    · have h1 : liveStep (jsSliceLast 50 a) msg = jsSliceLast 50 (a ++ [msg.point]) := by
        simp only [liveStep, if_pos hc]
        exact jsSliceLast_append_singleton 50 a msg.point
      rw [h1, ih (a ++ [msg.point])]
      have h2 : appendedPoints (msg :: rest) = msg.point :: appendedPoints rest := by
        simp [appendedPoints, hc]
      rw [h2, List.append_assoc]
      rfl
    · have h1 : liveStep (jsSliceLast 50 a) msg = jsSliceLast 50 a := by
        simp [liveStep, hc]
      have h2 : appendedPoints (msg :: rest) = appendedPoints rest := by
        simp [appendedPoints, hc]
      rw [h1, ih a, h2]

/- ## JavaScript numbers for the chart aggregation -/

/-- A JavaScript number as the chart aggregation needs it: an exact rational
(idealizing a finite double), an infinity, or NaN. -/
inductive JSNum where
  | num (q : ℚ)
  | posInf
  | negInf
  | nan
  deriving DecidableEq

/-- JavaScript addition on the JSNum carrier: NaN propagates, and the two
infinities of opposite sign give NaN. -/
def jsAdd : JSNum → JSNum → JSNum
  | .nan, _ => .nan
  | _, .nan => .nan
  | .posInf, .negInf => .nan
  | .negInf, .posInf => .nan
  | .posInf, _ => .posInf
  | _, .posInf => .posInf
  | .negInf, _ => .negInf
  | _, .negInf => .negInf
  | .num a, .num b => .num (a + b)

/-- JavaScript negation on the JSNum carrier. -/
def jsNeg : JSNum → JSNum
  | .num a => .num (-a)
  | .posInf => .negInf
  | .negInf => .posInf
  | .nan => .nan

/-- JavaScript subtraction on the JSNum carrier. -/
def jsSub (a b : JSNum) : JSNum := jsAdd a (jsNeg b)

/-- JavaScript multiplication on the JSNum carrier: zero times an infinity
is NaN. -/
def jsMul : JSNum → JSNum → JSNum
  | .nan, _ => .nan
  | _, .nan => .nan
  | .num a, .num b => .num (a * b)
  | .num a, .posInf => if a = 0 then .nan else if 0 < a then .posInf else .negInf
  | .num a, .negInf => if a = 0 then .nan else if 0 < a then .negInf else .posInf
  | .posInf, .num b => if b = 0 then .nan else if 0 < b then .posInf else .negInf
  | .negInf, .num b => if b = 0 then .nan else if 0 < b then .negInf else .posInf
  | .posInf, .posInf => .posInf
  | .posInf, .negInf => .negInf
  | .negInf, .posInf => .negInf
  | .negInf, .negInf => .posInf

/-- JavaScript division on the JSNum carrier: `0/0` is NaN, a non-zero
finite numerator over zero gives a signed infinity, and an infinity over an
infinity is NaN (signed zeros are not modelled). -/
def jsDiv : JSNum → JSNum → JSNum
  | .nan, _ => .nan
  | _, .nan => .nan
  | .num a, .num b =>
    if b = 0 then (if a = 0 then .nan else if 0 < a then .posInf else .negInf)
    else .num (a / b)
  | .num _, .posInf => .num 0
  | .num _, .negInf => .num 0
  | .posInf, .num b => if 0 ≤ b then .posInf else .negInf
  | .negInf, .num b => if 0 ≤ b then .negInf else .posInf
  | .posInf, _ => .nan
  | .negInf, _ => .nan

/-- JavaScript `Math.pow(x, 2)` on the JSNum carrier. -/
def jsPow2 : JSNum → JSNum
  | .num a => .num (a ^ 2)
  | .posInf => .posInf
  | .negInf => .posInf
  | .nan => .nan

/-- JavaScript `Math.pow(x, 3)` on the JSNum carrier. -/
def jsPow3 : JSNum → JSNum
  | .num a => .num (a ^ 3)
  | .posInf => .posInf
  | .negInf => .negInf
  | .nan => .nan

/-- JavaScript `Math.sqrt` on the JSNum carrier, abstracted over the value
`sq` it returns on positive rationals (an irrational result is not a
rational); the cases a claim depends on — NaN for negative input or NaN,
zero for zero — are exact. -/
def jsSqrt (sq : ℚ → ℚ) : JSNum → JSNum
  | .num a => if a < 0 then .nan else if a = 0 then .num 0 else .num (sq a)
  | .posInf => .posInf
  | .negInf => .nan
  | .nan => .nan

/-- JavaScript `Math.round` on the JSNum carrier: floor of the value plus
one half, with NaN and infinities passed through. -/
def jsRound : JSNum → JSNum
  | .num a => .num ((⌊a + 1/2⌋ : ℤ) : ℚ)
  | .posInf => .posInf
  | .negInf => .negInf
  | .nan => .nan

/-- JavaScript `Math.max` of two values: NaN wins, otherwise the larger. -/
def jsMax2 : JSNum → JSNum → JSNum
  | .nan, _ => .nan
  | _, .nan => .nan
  | .posInf, _ => .posInf
  | _, .posInf => .posInf
  | .num a, .num b => .num (max a b)
  | .num a, .negInf => .num a
  | .negInf, .num b => .num b
  | .negInf, .negInf => .negInf

/-- JavaScript `Math.min` of two values: NaN wins, otherwise the smaller. -/
def jsMin2 : JSNum → JSNum → JSNum
  | .nan, _ => .nan
  | _, .nan => .nan
  | .negInf, _ => .negInf
  | _, .negInf => .negInf
  | .num a, .num b => .num (min a b)
  | .num a, .posInf => .num a
  | .posInf, .num b => .num b
  | .posInf, .posInf => .posInf

/-- The aggregation kinds of the dashboard's AggregationType union
(src/src/components/Dashboard.tsx). -/
inductive AggKind where
  | max
  | min
  | average
  | mean
  | standardDeviation
  | skewness
  deriving DecidableEq

/-- `values.reduce((a, b) => a + b, 0)` over JavaScript numbers. -/
def sumJS (vs : List JSNum) : JSNum := vs.foldl jsAdd (.num 0)

/-- `values.length` as a JavaScript number. -/
def lenJS (vs : List JSNum) : JSNum := .num (vs.length : ℚ)

/-- The per-group switch of aggregateData
(src/src/components/Dashboard.tsx, aggregateData): given the acceleration
values of one grouped bucket of points, compute the aggregated value for
the selected aggregation kind.  `sq` stands for `Math.sqrt` on positive
rationals. -/
def aggregateValue (sq : ℚ → ℚ) (agg : AggKind) (values : List JSNum) : JSNum :=
  match agg with
  | .max => values.foldl jsMax2 .negInf
  | .min => values.foldl jsMin2 .posInf
  | .average => jsRound (jsDiv (sumJS values) (lenJS values))
  | .mean => jsRound (jsDiv (sumJS values) (lenJS values))
  | .standardDeviation =>
    jsRound (jsSqrt sq (jsDiv
      (values.foldl
        (fun a b => jsAdd a (jsPow2 (jsSub b (jsDiv (sumJS values) (lenJS values)))))
        (.num 0))
      (lenJS values)))
  | .skewness =>
    let avg := jsDiv (sumJS values) (lenJS values)
    let stdDev := jsSqrt sq (jsDiv
      (values.foldl (fun a b => jsAdd a (jsPow2 (jsSub b avg))) (.num 0))
      (lenJS values))
    let skew := jsDiv
      (values.foldl (fun a b => jsAdd a (jsPow3 (jsDiv (jsSub b avg) stdDev))) (.num 0))
      (lenJS values)
    jsDiv (jsRound (jsMul skew (.num 1000))) (.num 1000)

theorem foldl_jsAdd_const (v : ℚ) (vs : List JSNum) (hall : ∀ x ∈ vs, x = JSNum.num v) :
    ∀ a : ℚ, vs.foldl jsAdd (.num a) = .num (a + vs.length * v) := by
  induction vs with
  | nil => intro a; simp
  | cons w rest ih =>
    intro a
    have hw : w = JSNum.num v := hall w (by simp)
    rw [List.foldl_cons, hw]
    have h1 : jsAdd (.num a) (.num v) = .num (a + v) := rfl
    rw [h1, ih (fun x hx => hall x (by simp [hx])) (a + v)]
    congr 1
    simp only [List.length_cons]
    push_cast
    ring

theorem foldl_sq_const_zero (v : ℚ) (vs : List JSNum) (hall : ∀ x ∈ vs, x = JSNum.num v) :
    vs.foldl (fun acc b => jsAdd acc (jsPow2 (jsSub b (.num v)))) (.num 0) = .num 0 := by
  induction vs with
  | nil => rfl
  | cons w rest ih =>
    have hw : w = JSNum.num v := hall w (by simp)
    rw [List.foldl_cons, hw]
    have h1 : jsAdd (.num 0) (jsPow2 (jsSub (.num v) (.num v))) = .num 0 := by
      simp [jsSub, jsNeg, jsAdd, jsPow2]
    rw [h1]
    exact ih (fun x hx => hall x (by simp [hx]))

theorem foldl_nan_absorb (g : JSNum → JSNum) (vs : List JSNum) :
    vs.foldl (fun acc b => jsAdd acc (g b)) .nan = .nan := by
  induction vs with
  | nil => rfl
  | cons w rest ih =>
    rw [List.foldl_cons]
    have h1 : jsAdd .nan (g w) = .nan := by cases g w <;> rfl
    rw [h1]
    exact ih

/- ## Round-trip lemmas for the FileStore -/

theorem parseRow_rowOf (r : Reading) : parseRow (rowOf r) = some r := rfl

theorem parseRows_map_rowOf (rs : List Reading) : parseRows (rs.map rowOf) = some rs := by
  induction rs with
  | nil => rfl
  | cons r rest ih => simp [parseRows, parseRow_rowOf, ih]

/- ## Claim theorems -/

instance (es : List (Nat × Reading)) :
    (cur : Option MaxRecord) → Decidable (maxCorrect es cur)
  | none => inferInstanceAs (Decidable (es = []))
  | some r => inferInstanceAs (Decidable
      ((∃ e ∈ es, e.1 = r.sourceIndex ∧ e.2.total = r.value ∧
          e.2.timestamp = r.timestamp) ∧ ∀ e ∈ es, e.2.total ≤ r.value))

/-- C1: for every retention window state satisfying the MaxRecord invariant
(the recorded value is attained by a reading of a window file with the
recorded provenance and bounds every reading's `total`), one pipeline step —
admitting a StoredFile, evicting past the capacity, and notifying the
Aggregator's `on_window_changed` with the added and removed files — restores
the invariant for the new window within the same logical step; in
particular, when the eviction removed the file holding the current maximum,
the maximum is recomputed from scratch over the full current window. -/
theorem maxRecord_invariant_preserved (st : AggState) (f : StoredFile)
    (h : maxCorrect (windowEntries st.retention.window) st.maxRec) :
    maxCorrect (windowEntries (pipelineStep st f).retention.window)
      (pipelineStep st f).maxRec := by
  have hmain := onWindowChanged_admit_correct st.retention.maxFiles
    st.retention.window st.maxRec f h
  simpa [pipelineStep] using hmain

/-- A reading of total 5 at time 0, held by the sample file of index 0. -/
def sampleFileA : StoredFile := ⟨"a", [⟨0, 0, 0, 0, 5⟩], 0⟩

/-- A reading of total 3 at time 1, held by the sample file of index 1. -/
def sampleFileB : StoredFile := ⟨"b", [⟨1, 0, 0, 0, 3⟩], 1⟩

/-- A one-file window at capacity 1 whose MaxRecord points at the sole file:
admitting another file evicts the max-holding file. -/
def sampleAggState : AggState := ⟨⟨1, [sampleFileA]⟩, some ⟨5, 0, 0⟩⟩

/-- Witness for C1: the preservation theorem applied to a concrete state
where the admitted file evicts the file holding the current maximum. -/
theorem maxRecord_invariant_preserved_witness :
    maxCorrect (windowEntries (pipelineStep sampleAggState sampleFileB).retention.window)
      (pipelineStep sampleAggState sampleFileB).maxRec :=
  maxRecord_invariant_preserved sampleAggState sampleFileB (by decide)

/-- C2: after every `admit` of any admission sequence — here, after the
first `i + 1` admissions of an arbitrary non-empty sequence, from an
arbitrary starting state — the retention window holds at most `maxFiles`
StoredFiles. -/
theorem retention_window_bounded (st : RetentionState) (f : StoredFile)
    (fs : List StoredFile) (i : Nat) :
    (runAdmissions st ((f :: fs).take (i + 1))).window.length ≤ st.maxFiles := by
  rw [List.take_succ_cons]
  have h0 : runAdmissions st (f :: fs.take i) =
      runAdmissions (admitFile st f).1 (fs.take i) := rfl
  rw [h0]
  have h1 := runAdmissions_window_le (admitFile st f).1 (fs.take i)
    (by simpa [admitFile_maxFiles] using admitFile_window_le st f)
  simpa [admitFile_maxFiles] using h1

/-- C3: round-trip — writing a sealed SecondBucket through the FileStore and
then reading the resulting file's path returns exactly the same ordered
readings, timestamps and values preserved. -/
theorem filestore_roundtrip (st : FileStoreState) (b : SecondBucket) :
    fsRead (fsWrite st b).1 (pathOf b.second) = Except.ok b.readings := by
  simp [fsWrite, fsRead, parseRows_map_rowOf]

/-- A StoredFile of creation-order index `i`, as admitted in the eviction
scenario. -/
def mkFile (i : Nat) : StoredFile := ⟨"", [], i⟩

set_option maxRecDepth 100000 in
/-- C4: admitting 130 files in creation order into an empty window of
capacity 120 evicts exactly the 10 oldest files, in creation order, and
leaves a window of exactly the last 120 files, of length 120. -/
theorem admit_130_files_evicts_10_oldest :
    runAdmitTrace ⟨120, []⟩ ((List.range 130).map mkFile) =
      (⟨120, (List.range 120).map (fun i => mkFile (i + 10))⟩,
        (List.range 10).map mkFile) ∧
    (runAdmitTrace ⟨120, []⟩ ((List.range 130).map mkFile)).1.window.length = 120 := by
  constructor
  · decide
  · decide

/-- C5: a `set_sampling_rate` request outside the configured bounds is
rejected with a `command_response` whose success flag is false, the sampler
state (in particular its current rate) is unchanged, and the dashboard's
`command_response` handler leaves the displayed rate unchanged on a failed
response. -/
theorem set_sampling_rate_rejected (st : SamplerState) (req : Nat)
    (h : ¬(st.minRate ≤ req ∧ req ≤ st.maxRate)) :
    (setSamplingRate st req).2.success = false ∧
    (setSamplingRate st req).2.command = "set_sampling_rate" ∧
    (setSamplingRate st req).1 = st ∧
    ∀ (displayed : Nat) (nr : Option Nat),
      handleCommandResponse displayed "set_sampling_rate"
        (setSamplingRate st req).2.success nr = displayed := by
  have hif : setSamplingRate st req = (st, ⟨"set_sampling_rate", false, none⟩) := by
    simp only [setSamplingRate, if_neg h]
  rw [hif]
  refine ⟨rfl, rfl, rfl, ?_⟩
  intro displayed nr
  cases nr <;> rfl

/-- Witness for C5: a request of 100000 Hz against bounds 1–850 Hz is
rejected and leaves both the sampler state and the displayed rate
unchanged. -/
theorem set_sampling_rate_rejected_witness :
    (setSamplingRate ⟨800, 1, 850⟩ 100000).2.success = false ∧
    (setSamplingRate ⟨800, 1, 850⟩ 100000).2.command = "set_sampling_rate" ∧
    (setSamplingRate ⟨800, 1, 850⟩ 100000).1 = (⟨800, 1, 850⟩ : SamplerState) ∧
    ∀ (displayed : Nat) (nr : Option Nat),
      handleCommandResponse displayed "set_sampling_rate"
        (setSamplingRate ⟨800, 1, 850⟩ 100000).2.success nr = displayed :=
  set_sampling_rate_rejected ⟨800, 1, 850⟩ 100000 (by decide)

/-- C6: the StoredFile produced by `write` is placed at
`readings/<YYYY>/<MM>/Week_<N>/<DD>/<HHMMSS>.csv` derived from the bucket's
second, its rows are in the exact column order `timestamp,x,y,z,total`, and
the derivation reproduces the hierarchy the dashboard displays
(`2025/01/Week_1/01/143022.csv` and the other sample paths of
src/unnamed/part_003, dummyFolderStructure, under the `readings/` root). -/
theorem filestore_path_and_columns :
    (∀ (st : FileStoreState) (b : SecondBucket),
      (fsWrite st b).2.path = pathOf b.second ∧
      (fsWrite st b).1.disk.head? = some (pathOf b.second, b.readings.map rowOf)) ∧
    (∀ r : Reading, rowOf r = [CsvCell.stamp r.timestamp, CsvCell.value r.x,
      CsvCell.value r.y, CsvCell.value r.z, CsvCell.value r.total]) ∧
    pathOf ⟨2025, 1, 1, 14, 30, 22⟩ = "readings/2025/01/Week_1/01/143022.csv" ∧
    pathOf ⟨2025, 1, 8, 15, 45, 0⟩ = "readings/2025/01/Week_2/08/154500.csv" ∧
    pathOf ⟨2024, 12, 28, 23, 59, 59⟩ = "readings/2024/12/Week_4/28/235959.csv" := by
  refine ⟨fun st b => ⟨rfl, rfl⟩, fun r => rfl, ?_, ?_, ?_⟩ <;> decide

/-- C7 counterexample: with one StoredFile per wall-clock second, a
retention capacity of 120 files does not correspond to the 2-hour
aggregation window — it retains 120 seconds, not 2 hours. -/
theorem retention_120_not_two_hours :
    secondsRetained 120 ≠ aggregationIntervalHours * 3600 := by decide

/-- C7 as amended: at one file per second the 2-hour aggregation window of
src/backend/README.md corresponds to its stated 7200 files, while a
capacity of 120 files retains 120 seconds (2 minutes). -/
theorem two_hour_window_is_7200_files :
    secondsRetained readmeFilesPerWindow = aggregationIntervalHours * 3600 ∧
    aggregationIntervalHours * 3600 = 7200 ∧
    secondsRetained 120 = 120 := by decide

/-- C8: after any sequence of `status` messages the dashboard's live-data
buffer holds exactly the last 50 points appended so far (oldest dropped
first), and in particular never more than 50 points. -/
theorem live_buffer_last_fifty (msgs : List StatusMsg) :
    runLive msgs = jsSliceLast 50 (appendedPoints msgs) ∧
    (runLive msgs).length ≤ 50 := by
  have h := foldl_liveStep_slice msgs []
  have h0 : jsSliceLast 50 ([] : List DataPoint) = [] := rfl
  rw [h0] at h
  have hmain : runLive msgs = jsSliceLast 50 (appendedPoints msgs) := by
    simpa [runLive] using h
  exact ⟨hmain, hmain ▸ jsSliceLast_length_le 50 (appendedPoints msgs)⟩

/-- C9: the dashboard's `file_list` handler leaves the stored CSV file list
unchanged when the `files` array is absent or empty, and replaces it only
with a non-empty array. -/
theorem file_list_empty_keeps_state (current fs : List String) :
    handleFileListMsg none current = current ∧
    handleFileListMsg (some []) current = current ∧
    (fs ≠ [] → handleFileListMsg (some fs) current = fs) := by
  refine ⟨rfl, rfl, fun h => ?_⟩
  simp only [handleFileListMsg, if_pos (List.length_pos.mpr h)]

/-- C10: for every non-empty group of points whose acceleration values are
all equal (and finite), the skewness aggregation divides by the zero
standard deviation, so the aggregated value is NaN — the division is
unguarded.  The result holds for every possible square-root valuation
`sq`. -/
theorem skewness_constant_group_nan (sq : ℚ → ℚ) (vs : List JSNum) (v : ℚ)
    (hne : vs ≠ []) (hall : ∀ x ∈ vs, x = JSNum.num v) :
    aggregateValue sq AggKind.skewness vs = JSNum.nan := by
  have hn : 0 < vs.length := List.length_pos.mpr hne
  have hcast : (vs.length : ℚ) ≠ 0 := Nat.cast_ne_zero.mpr (by omega)
  have hsum : sumJS vs = .num (vs.length * v) := by
    simpa [sumJS] using foldl_jsAdd_const v vs hall 0
  have havg : jsDiv (sumJS vs) (lenJS vs) = .num v := by
    rw [hsum]
    simp only [lenJS, jsDiv, if_neg hcast]
    congr 1
    field_simp
  have hvar := foldl_sq_const_zero v vs hall
  simp only [aggregateValue]
  rw [havg, hvar]
  have hdiv0 : jsDiv (.num 0) (lenJS vs) = .num 0 := by
    simp only [lenJS, jsDiv, if_neg hcast]
    norm_num
  rw [hdiv0]
  have hsqrt0 : jsSqrt sq (.num 0) = .num 0 := by simp [jsSqrt]
  rw [hsqrt0]
  obtain ⟨w, rest, rfl⟩ := List.exists_cons_of_ne_nil hne
  have hw : w = JSNum.num v := hall w (by simp)
  rw [List.foldl_cons, hw]
  have hstep : jsAdd (.num 0) (jsPow3 (jsDiv (jsSub (.num v) (.num v)) (.num 0))) = .nan := by
    simp [jsSub, jsNeg, jsAdd, jsDiv, jsPow3]
  rw [hstep, foldl_nan_absorb]
  rfl

/-- Witness for C10: a group of three equal finite values aggregates to NaN
under skewness. -/
theorem skewness_constant_group_nan_witness :
    aggregateValue (fun q => q) AggKind.skewness
      [JSNum.num 3, JSNum.num 3, JSNum.num 3] = JSNum.nan :=
  skewness_constant_group_nan (fun q => q) [JSNum.num 3, JSNum.num 3, JSNum.num 3] 3
    (by decide) (by decide)
